import Mathlib

/-
Verification development for the dependency lock-file verifier
(src/dependency-verifier.py).

The script compares the git diff of a package-lock.json file (the primary
lock) with the git diff of its sibling yarn.lock file (the mirror lock)
and fails when a dependency changed in the primary lock is not also
changed in the mirror lock.

Shallow embedding conventions:
- Python strings are modelled as List Char (called Str below).
- Python dicts (insertion ordered, unique keys) are modelled as
  association lists; assignment keeps the position of an existing key.
- Python code that can raise an exception is modelled in Option:
  none models an uncaught exception, some v models a normal return.
  The only possibly raising operation in the core is the index [1]
  applied to the result of rsplit("@", 1) on a string without "@".
-/

namespace DepVerifier

abbrev Str := List Char

/-- Whitespace stripped by the Python str.strip() method (ASCII range;
the lock-file diffs handled by the script are ASCII text). -/
def pyIsSpace (c : Char) : Bool :=
  c == ' ' || c == '\x09' || c == '\x0a' || c == '\x0d' || c == '\x0b' || c == '\x0c'

/-- Python str.lstrip() with no argument. -/
def pyLstrip (s : Str) : Str := s.dropWhile pyIsSpace

/-- Python str.rstrip() with no argument. -/
def pyRstrip (s : Str) : Str := (s.reverse.dropWhile pyIsSpace).reverse

/-- Python str.strip() with no argument. -/
def pyStrip (s : Str) : Str := pyRstrip (pyLstrip s)

/-- Python str.lstrip(ch) for a one-character set: removes every leading
occurrence of the character. -/
def pyLstripChar (ch : Char) (s : Str) : Str := s.dropWhile (fun c => c == ch)

/-- Line-break characters recognised by the Python str.splitlines()
method (the BMP set; the two-character sequence CR LF is handled in
pySplitlines itself). -/
def pyIsLineBreak (c : Char) : Bool :=
  c == '\x0a' || c == '\x0d' || c == '\x0b' || c == '\x0c' || c == '\x1c' ||
    c == '\x1d' || c == '\x1e' || c == '\x85' || c == ' ' || c == ' '

/-- Python str.splitlines(): splits at every line break, treats CR LF as
one break, and drops a trailing empty line. -/
def pySplitlines : Str → List Str
  | [] => []
  | [c] => if pyIsLineBreak c then [[]] else [[c]]
  | c :: c2 :: rest =>
    if c = '\x0d' ∧ c2 = '\x0a' then [] :: pySplitlines rest
    else if pyIsLineBreak c then [] :: pySplitlines (c2 :: rest)
    else
      match pySplitlines (c2 :: rest) with
      | [] => [[c]]
      | l :: ls => (c :: l) :: ls

/-- Python s.split(sep, 1) for a nonempty separator, as the pair of the
text before and after the first occurrence of sep; none when sep does
not occur (Python then returns the one-element list [s]). -/
def pySplitOnce (sep : Str) : Str → Option (Str × Str)
  | [] => none
  | c :: rest =>
    if sep.isPrefixOf (c :: rest) then some ([], (c :: rest).drop sep.length)
    else
      match pySplitOnce sep rest with
      | some (a, b) => some (c :: a, b)
      | none => none

/-- Python s.split(ch, 1)[0]: the text before the first occurrence of
the character, or the whole string when the character does not occur. -/
def pyBeforeFirst (ch : Char) (s : Str) : Str :=
  match pySplitOnce [ch] s with
  | some (before, _) => before
  | none => s

/-- Python s.split(ch) with no limit (full split on one character). -/
def pySplitChar (ch : Char) : Str → List Str
  | [] => [[]]
  | c :: rest =>
    if c = ch then [] :: pySplitChar ch rest
    else
      match pySplitChar ch rest with
      | [] => [[c]]
      | piece :: pieces => (c :: piece) :: pieces

/-- Python s.rsplit(ch, 1) as the pair around the last occurrence of the
character; none when the character does not occur (Python then returns
the one-element list [s], so indexing it with [1] raises IndexError). -/
def pyRsplitOnceChar (ch : Char) (s : Str) : Option (Str × Str) :=
  match s.reverse.dropWhile (fun c => !(c == ch)) with
  | [] => none
  | _ :: beforeRev => some (beforeRev.reverse, (s.reverse.takeWhile (fun c => !(c == ch))).reverse)

/-- The newline join used to rebuild a diff text from its lines (inverse
direction of pySplitlines, used to state diff-level theorems). -/
def joinLines : List Str → Str
  | [] => []
  | [l] => l
  | l :: l2 :: ls => l ++ '\x0a' :: joinLines (l2 :: ls)

/-- The DependencySet of the design: a Python dict from dependency
identifier to the always-empty change marker list, kept as an
insertion-ordered association list with unique keys. -/
abbrev DependencySet := List (Str × List Str)

/-- Python dict assignment d[k] = v: overwrite in place when the key
exists (keeping its position), otherwise append the new pair. -/
def dictInsert (d : DependencySet) (k : Str) (v : List Str) : DependencySet :=
  if d.any (fun p => p.1 == k) then
    d.map (fun p => if p.1 == k then (k, v) else p)
  else d ++ [(k, v)]

/-- Python membership and subscript lookup on the dict. -/
def dictLookup (d : DependencySet) (k : Str) : Option (List Str) :=
  match d with
  | [] => none
  | (k2, v) :: rest => if k2 == k then some v else dictLookup rest k

/-- The literal the primary-lock parser searches for, source line 33. -/
def npmKeyStart : Str := "\"node_modules/".toList

/-- Per-line work of GetNpmDependencyUpdates (source lines 30-34): strip
whitespace, strip leading tabs, and when the line starts with the
literal quote-node_modules-slash, cut out the text between that literal
and the next quote character. The inner none branch is unreachable
because the literal is a prefix of the line there. -/
def npmLineId (line0 : Str) : Option Str :=
  let line1 := pyStrip line0
  let line := pyLstripChar '\x09' line1
  if npmKeyStart.isPrefixOf line then
    match pySplitOnce npmKeyStart line with
    | some (_, tail) => some (pyBeforeFirst '\x22' tail)
    | none => none
  else none

/-- One iteration of the loop in GetNpmDependencyUpdates. -/
def npmStep (dependencies : DependencySet) (line : Str) : DependencySet :=
  match npmLineId line with
  | some dep => dictInsert dependencies dep []
  | none => dependencies

/-- GetNpmDependencyUpdates, source lines 26-35: fold the per-line
dictionary update over the diff lines of package-lock.json. -/
def GetNpmDependencyUpdates (packageLockDiffLines : List Str) : DependencySet :=
  packageLockDiffLines.foldl npmStep []

/-- Body of the inner loop of GetYarnDependencyUpdates (source lines
44-47): split the piece at the last "@"; when the piece holds no "@",
Python rsplit returns a single element and the index [1] taken for the
version raises IndexError, modelled as none. -/
def yarnPieceStep (dependencies : DependencySet) (dependencyAtVers : Str) : Option DependencySet :=
  match pyRsplitOnceChar '@' dependencyAtVers with
  | some (dep, _vers) => some (dictInsert dependencies dep [])
  | none => none

/-- GetYarnDependencyUpdates, source lines 37-48: a line counts only
when it is unindented and holds an "@"; it is then stripped of leading
quote characters, split on commas, and every piece is inserted under its
name part. The Option result propagates the possible IndexError. -/
def GetYarnDependencyUpdates (yarnLockDiffLines : List Str) : Option DependencySet :=
  yarnLockDiffLines.foldlM
    (fun dependencies line =>
      if line = pyLstrip line ∧ '@' ∈ line then
        (pySplitChar ',' (pyLstripChar '\x22' line)).foldlM yarnPieceStep dependencies
      else pure dependencies)
    []

/-- The diff-line comprehension of source lines 53-54: keep the lines
starting with a plus or minus marker and drop the marker character. -/
def diffContentLines (diff : Str) : List Str :=
  ((pySplitlines diff).filter
      (fun line => ['+'].isPrefixOf line || ['-'].isPrefixOf line)).map
    (fun line => line.drop 1)

/-- One iteration of the reconciling loop of GetUnmatchedDiffs (source
lines 56-60): a primary dependency is in sync exactly when the mirror
dict has the key with an equal value. -/
def reconcileStep (yarnDeps : DependencySet) (outOfSyncDependencies : List Str)
    (p : Str × List Str) : List Str :=
  match dictLookup yarnDeps p.1 with
  | some v => if v = p.2 then outOfSyncDependencies else outOfSyncDependencies ++ [p.1]
  | none => outOfSyncDependencies ++ [p.1]

/-- The Set Reconciler: the loop of source lines 55-61 over the parsed
primary dict, collecting the unmatched identifiers in iteration order. -/
def reconcile (yarnDeps npmDeps : DependencySet) : List Str :=
  npmDeps.foldl (reconcileStep yarnDeps) []

/-- GetUnmatchedDiffs, source lines 50-61: parse both diffs and
reconcile. none models the IndexError escaping from the yarn parser. -/
def GetUnmatchedDiffs (yarnDiff npmDiff : Str) : Option (List Str) :=
  match GetYarnDependencyUpdates (diffContentLines yarnDiff) with
  | none => none
  | some yarnDeps =>
    some (reconcile yarnDeps (GetNpmDependencyUpdates (diffContentLines npmDiff)))

/-- Python os.path.dirname for the slash-separated relative paths that
git diff --name-only emits: the text before the last slash, empty when
there is no slash. -/
def osPathDirname (p : Str) : Str :=
  match pyRsplitOnceChar '/' p with
  | some (d, _) => d
  | none => []

/-- Python os.path.join for the same path shapes: concatenation with a
single separating slash, the left part dropped when empty. -/
def osPathJoin (d f : Str) : Str :=
  if d = [] then f
  else if d.getLast? = some '/' then d ++ f
  else d ++ '/' :: f

/-- The file name of the mirror lock, source line 65. -/
def yarnLockFileName : Str := "yarn.lock".toList

/-- One element of the outOfDateYarnLocks list of source lines 67-78:
either the bare mirror path (mirror file absent from the change set) or
the mirror path paired with the unmatched dependency list. -/
inductive SyncEntry
  | missingLock (yarnLockPath : Str)
  | unmatched (yarnLockPath : Str) (deps : List Str)
deriving DecidableEq

/-- Observable outcome of NpmChangesMirrorYarnChanges: the sys.exit with
the offending entries, or the silent success return of source line 82. -/
inductive VerifyOutcome
  | exitError (outOfDateYarnLocks : List SyncEntry)
  | ok
deriving DecidableEq

/-- NpmChangesMirrorYarnChanges, source lines 63-82. The two git diff
subprocess invocations are abstracted as the oracle getDiff from a path
to its diff text; version-control state and the target branch are fixed
inside the oracle. Paths are the relative slash paths of git output.
The outer none again models the IndexError escaping from the parser. -/
def NpmChangesMirrorYarnChanges (changedFiles : List Str) (packageLockPath : Str)
    (getDiff : Str → Str) : Option VerifyOutcome :=
  let yarnLockPath := osPathJoin (osPathDirname packageLockPath) yarnLockFileName
  let outOfDateYarnLocks : Option (List SyncEntry) :=
    if yarnLockPath ∈ changedFiles then
      match GetUnmatchedDiffs (getDiff yarnLockPath) (getDiff packageLockPath) with
      | none => none
      | some [] => some []
      | some diffSetComplement => some [SyncEntry.unmatched yarnLockPath diffSetComplement]
    else some [SyncEntry.missingLock yarnLockPath]
  match outOfDateYarnLocks with
  | none => none
  | some [] => some VerifyOutcome.ok
  | some locks => some (VerifyOutcome.exitError locks)

/-- Specification-side helper: first-occurrence deduplication, keeping
the order in which elements first appear and skipping elements already
seen. Used to characterise the key order of the parsed dictionaries. -/
def dedupFirstAux (seen : List Str) : List Str → List Str
  | [] => []
  | x :: xs => if x ∈ seen then dedupFirstAux seen xs else x :: dedupFirstAux (x :: seen) xs

/-- Diff marker character: plus for an added line, minus for a removed
one. Used to state marker-independence theorems. -/
def markChar (added : Bool) : Char := if added then '+' else '-'

/-- Build a one-file diff text from content lines and their add/remove
markers. -/
def buildDiff (marks : List Bool) (lines : List Str) : Str :=
  joinLines (List.zipWith (fun m l => markChar m :: l) marks lines)

-- Sanity examples on concrete inputs (mirroring a hand execution of the
-- Python code).

example : pySplitlines "a\r\nb\n\nc".toList = [['a'], ['b'], [], ['c']] := rfl

example :
    GetNpmDependencyUpdates ["  \"node_modules/lodash/package.json\": \x7b".toList] =
      [("lodash/package.json".toList, [])] := rfl

example :
    GetYarnDependencyUpdates ["lodash@4.17.21:".toList] =
      some [("lodash".toList, [])] := rfl

example :
    GetYarnDependencyUpdates ["foo@1.2.3, bar@2.0.0:".toList] =
      some [("foo".toList, []), (" bar".toList, [])] := rfl

example : GetYarnDependencyUpdates ["foo@1,bar:".toList] = none := rfl

example :
    GetUnmatchedDiffs "+lodash@4.17.21:".toList
      "+  \"node_modules/lodash/package.json\": \x7b...\x7d".toList =
      some ["lodash/package.json".toList] := rfl

/-- Generalisation of the reconciler loop: when every primary pair is
found unchanged in the mirror dict, the loop appends nothing. -/
theorem foldl_reconcileStep_all_matched (yarnDeps : DependencySet) (l : DependencySet)
    (acc : List Str) (h : ∀ p ∈ l, dictLookup yarnDeps p.1 = some p.2) :
    List.foldl (reconcileStep yarnDeps) acc l = acc := by
  induction l generalizing acc with
  | nil => rfl
  | cons p rest ih =>
    have hp := h p (List.mem_cons_self p rest)
    have hstep : reconcileStep yarnDeps acc p = acc := by
      simp [reconcileStep, hp]
    rw [List.foldl_cons, hstep]
    exact ih acc (fun q hq => h q (List.mem_cons_of_mem p hq))

/-- The reconciler returns the empty list when every primary pair is
matched exactly in the mirror dict. -/
theorem reconcile_all_matched (yarnDeps npmDeps : DependencySet)
    (h : ∀ p ∈ npmDeps, dictLookup yarnDeps p.1 = some p.2) :
    reconcile yarnDeps npmDeps = [] :=
  foldl_reconcileStep_all_matched yarnDeps npmDeps [] h

/-- A key of the association list is found by dictLookup, and the found
value is one of the stored pairs. -/
theorem dictLookup_of_mem_keys (d : DependencySet) (k : Str)
    (h : k ∈ d.map Prod.fst) : ∃ v, dictLookup d k = some v ∧ (k, v) ∈ d := by
  induction d with
  | nil => simp at h
  | cons hd rest ih =>
    obtain ⟨k2, v⟩ := hd
    by_cases he : k2 = k
    · subst he
      exact ⟨v, by simp [dictLookup], List.mem_cons_self _ _⟩
    · have hmem : k ∈ rest.map Prod.fst := by
        simp only [List.map_cons, List.mem_cons] at h
        rcases h with h1 | h2
        · exact absurd h1.symm he
        · exact h2
      obtain ⟨w, hw, hmemw⟩ := ih hmem
      refine ⟨w, ?_, List.mem_cons_of_mem _ hmemw⟩
      have hbe : (k2 == k) = false := by
        simp [he]
      simp [dictLookup, hbe, hw]

/-- With pairwise distinct keys, dictLookup returns the stored value of
every pair in the list. -/
theorem dictLookup_self_of_nodup (d : DependencySet)
    (hnd : (d.map Prod.fst).Nodup) : ∀ p ∈ d, dictLookup d p.1 = some p.2 := by
  induction d with
  | nil => intro p hp; simp at hp
  | cons hd rest ih =>
    obtain ⟨k2, v⟩ := hd
    simp only [List.map_cons, List.nodup_cons] at hnd
    intro p hp
    rcases List.mem_cons.mp hp with hp1 | hp2
    · subst hp1
      simp [dictLookup]
    · have hne : (k2 == p.1) = false := by
        have : p.1 ∈ rest.map Prod.fst := List.mem_map_of_mem Prod.fst hp2
        simp only [beq_eq_false_iff_ne, ne_eq]
        intro he
        exact hnd.1 (he ▸ this)
      have := ih hnd.2 p hp2
      simp [dictLookup, hne, this]

/-- Claim C6: one-directional comparison. When the mirror dict is a
strict superset of the primary dict (every primary key a mirror key,
the mirror holding at least one extra key) and both carry the
always-empty change markers of the data model, the reconciler reports
in sync: mirror-only entries never cause failure. -/
theorem mirror_superset_in_sync (yarnDeps npmDeps : DependencySet)
    (hyv : ∀ p ∈ yarnDeps, p.2 = ([] : List Str))
    (hnv : ∀ p ∈ npmDeps, p.2 = ([] : List Str))
    (hsub : ∀ k ∈ npmDeps.map Prod.fst, k ∈ yarnDeps.map Prod.fst)
    (_hstrict : ∃ k, k ∈ yarnDeps.map Prod.fst ∧ k ∉ npmDeps.map Prod.fst) :
    reconcile yarnDeps npmDeps = [] := by
  apply reconcile_all_matched
  intro p hp
  obtain ⟨v, hv, hmem⟩ := dictLookup_of_mem_keys yarnDeps p.1
    (hsub p.1 (List.mem_map_of_mem Prod.fst hp))
  have hv0 : v = [] := hyv _ hmem
  have hp0 : p.2 = [] := hnv p hp
  rw [hv, hv0, hp0]

/-- Witness for claim C6 at a concrete strict superset. -/
theorem mirror_superset_in_sync_witness :
    reconcile [("a".toList, []), ("b".toList, [])] [("a".toList, [])] = [] :=
  mirror_superset_in_sync _ _ (by decide) (by decide) (by decide)
    ⟨"b".toList, by decide⟩

/-- Claim C7: reconciler idempotence. Reconciling a dependency dict
against itself (same dict as primary and mirror) yields the empty
out-of-sync list; the unique-keys invariant of the dict is assumed. -/
theorem reconcile_self_empty (d : DependencySet) (hnd : (d.map Prod.fst).Nodup) :
    reconcile d d = [] :=
  reconcile_all_matched d d (dictLookup_self_of_nodup d hnd)

/-- Witness for claim C7 at a concrete dict. -/
theorem reconcile_self_empty_witness :
    reconcile [("a".toList, []), ("b".toList, [])] [("a".toList, []), ("b".toList, [])] = [] :=
  reconcile_self_empty [("a".toList, []), ("b".toList, [])] (by decide)

/-- Claim C1 (code bug evidence): the spec promises that the core never
raises and that unrepresentable lines contribute nothing, but on a
mirror diff whose added line is unindented, contains an at sign, and
has a comma piece without one, the inner index [1] of source line 46
raises IndexError; the embedding returns none (abort) instead of a
verdict. -/
theorem core_raises_on_comma_piece_without_at :
    GetUnmatchedDiffs "+foo@1,bar:".toList "".toList = none := rfl

/-- Claim C2 (counterexample): contrary to end-to-end scenario 1, the
verdict on the given pair of one-line diffs is not in sync. -/
theorem scenario1_not_in_sync :
    GetUnmatchedDiffs "+lodash@4.17.21:".toList
      "+  \"node_modules/lodash/package.json\": \x7b...\x7d".toList ≠ some [] := by
  decide

/-- Claim C2 (amended): on the scenario 1 inputs the core returns the
out-of-sync list [lodash/package.json], because the primary parser
extracts the whole quoted segment after node_modules/ (including the
trailing path) while the mirror parser extracts the bare name lodash. -/
theorem scenario1_actual_verdict :
    GetUnmatchedDiffs "+lodash@4.17.21:".toList
      "+  \"node_modules/lodash/package.json\": \x7b...\x7d".toList =
      some ["lodash/package.json".toList] := rfl

/-- Claim C4 (counterexample): on the mirror line foo@1.2.3, bar@2.0.0:
the parsed key set is not exactly the pair foo and bar: the second key
keeps the space following the comma. -/
theorem yarn_keys_not_foo_bar :
    ¬ ∃ d, GetYarnDependencyUpdates ["foo@1.2.3, bar@2.0.0:".toList] = some d ∧
        ∀ k, k ∈ d.map Prod.fst ↔ (k = "foo".toList ∨ k = "bar".toList) := by
  rintro ⟨d, hd, hiff⟩
  have h2 : GetYarnDependencyUpdates ["foo@1.2.3, bar@2.0.0:".toList] =
      some [("foo".toList, []), ((" bar").toList, [])] := rfl
  rw [h2] at hd
  have hdeq : d = [("foo".toList, []), ((" bar").toList, [])] := (Option.some.inj hd).symm
  subst hdeq
  have h3 := (hiff "bar".toList).mpr (Or.inr rfl)
  revert h3
  decide

/-- Claim C4 (amended): the mirror parser splits the line on commas
without trimming, so the keys are foo and space-bar, the version text
after the last at sign of each piece being discarded. -/
theorem yarn_comma_pieces_untrimmed :
    GetYarnDependencyUpdates ["foo@1.2.3, bar@2.0.0:".toList] =
      some [("foo".toList, []), ((" bar").toList, [])] := rfl

/-- Claim C5 (counterexample): a primary-lock line whose quoted segment
lacks the closing quote is not excluded: it contributes an entry (the
whole remainder after the node_modules prefix becomes the key). -/
theorem npm_unclosed_quote_still_contributes :
    GetNpmDependencyUpdates ["\"node_modules/foo".toList] ≠ [] := by decide

/-- Claim C5 (amended): mirror-lock lines without an at sign are
skipped silently and contribute nothing, and neither malformed shape
raises a distinct error; but a primary-lock line with an unclosed
quoted segment still contributes an entry consisting of everything
after the prefix, rather than being excluded. -/
theorem malformed_lines_handling :
    (∀ line : Str, '@' ∉ line → GetYarnDependencyUpdates [line] = some []) ∧
      GetNpmDependencyUpdates ["\"node_modules/foo".toList] = [("foo".toList, [])] := by
  constructor
  · intro line h
    have hcond : ¬ (line = pyLstrip line ∧ '@' ∈ line) := fun hc => h hc.2
    simp [GetYarnDependencyUpdates, List.foldlM_cons, List.foldlM_nil, if_neg hcond]
  · rfl

/-- Witness for claim C5 applying the quantified part at a concrete
line without an at sign. -/
theorem malformed_lines_handling_witness :
    GetYarnDependencyUpdates ["bar:".toList] = some [] :=
  malformed_lines_handling.1 "bar:".toList (by decide)

/-- Claim C9: missing sibling is always a failure. Whenever the sibling
mirror-lock path (same directory, conventional yarn.lock name) is not in
the changed-file list, the walker reports the out-of-sync exit carrying
that path, regardless of any diff content the oracle would supply. -/
theorem missing_mirror_always_fails (changedFiles : List Str) (packageLockPath : Str)
    (getDiff : Str → Str)
    (h : osPathJoin (osPathDirname packageLockPath) yarnLockFileName ∉ changedFiles) :
    NpmChangesMirrorYarnChanges changedFiles packageLockPath getDiff =
      some (VerifyOutcome.exitError
        [SyncEntry.missingLock (osPathJoin (osPathDirname packageLockPath) yarnLockFileName)]) := by
  simp [NpmChangesMirrorYarnChanges, if_neg h]

/-- Witness for claim C9 at a concrete change set missing the mirror. -/
theorem missing_mirror_always_fails_witness :
    NpmChangesMirrorYarnChanges ["package-lock.json".toList] "package-lock.json".toList
        (fun _ => []) =
      some (VerifyOutcome.exitError [SyncEntry.missingLock "yarn.lock".toList]) :=
  missing_mirror_always_fails ["package-lock.json".toList] "package-lock.json".toList
    (fun _ => []) (by decide)

/-- dictInsert of a key already stored with the empty marker leaves the
dict unchanged. -/
theorem dictInsert_of_mem (d : DependencySet) (k : Str)
    (hv : ∀ p ∈ d, p.2 = ([] : List Str)) (hk : k ∈ d.map Prod.fst) :
    dictInsert d k [] = d := by
  have hany : d.any (fun p => p.1 == k) = true := by
    rcases List.mem_map.mp hk with ⟨p, hp, hpk⟩
    exact List.any_eq_true.mpr ⟨p, hp, by simp [hpk]⟩
  rw [dictInsert, if_pos hany]
  have hid : ∀ p ∈ d, (if p.1 == k then (k, ([] : List Str)) else p) = p := by
    intro p hp
    by_cases he : p.1 = k
    · have hb : (p.1 == k) = true := by simp [he]
      rw [if_pos hb]
      have h2 := hv p hp
      obtain ⟨a, b⟩ := p
      simp only at h2
      simp at he
      rw [he, h2]
    · have hb : (p.1 == k) = false := by simp [he]
      rw [if_neg (by simp [hb])]
  calc d.map (fun p => if p.1 == k then (k, ([] : List Str)) else p)
      = d.map id := List.map_congr_left hid
    _ = d := List.map_id d

/-- dictInsert of a fresh key appends the pair. -/
theorem dictInsert_of_not_mem (d : DependencySet) (k : Str) (v : List Str)
    (hk : k ∉ d.map Prod.fst) : dictInsert d k v = d ++ [(k, v)] := by
  have hany : d.any (fun p => p.1 == k) = false := by
    rw [List.any_eq_false]
    intro p hp
    have hne : p.1 ≠ k := fun he => hk (he ▸ List.mem_map_of_mem Prod.fst hp)
    simp [hne]
  rw [dictInsert, if_neg (by simp [hany])]

/-- dedupFirstAux only looks at membership of the seen accumulator. -/
theorem dedupFirstAux_congr (ids : List Str) (s1 s2 : List Str)
    (h : ∀ x, x ∈ s1 ↔ x ∈ s2) : dedupFirstAux s1 ids = dedupFirstAux s2 ids := by
  induction ids generalizing s1 s2 with
  | nil => rfl
  | cons i ids ih =>
    by_cases hi : i ∈ s1
    · simp only [dedupFirstAux, if_pos hi, if_pos ((h i).mp hi)]
      exact ih s1 s2 h
    · simp only [dedupFirstAux, if_neg hi, if_neg (fun hh => hi ((h i).mpr hh))]
      congr 1
      apply ih
      intro x
      simp only [List.mem_cons]
      rw [h x]

/-- Membership in the first-occurrence deduplication. -/
theorem mem_dedupFirstAux (ids : List Str) (seen : List Str) (x : Str) :
    x ∈ dedupFirstAux seen ids ↔ (x ∈ ids ∧ x ∉ seen) := by
  induction ids generalizing seen with
  | nil => simp [dedupFirstAux]
  | cons i ids ih =>
    by_cases hi : i ∈ seen
    · simp only [dedupFirstAux, if_pos hi, ih, List.mem_cons]
      constructor
      · rintro ⟨h1, h2⟩
        exact ⟨Or.inr h1, h2⟩
      · rintro ⟨h1 | h1, h2⟩
        · exact absurd (h1 ▸ hi) h2
        · exact ⟨h1, h2⟩
    · simp only [dedupFirstAux, if_neg hi, List.mem_cons, ih]
      constructor
      · rintro (rfl | ⟨h1, h2⟩)
        · exact ⟨Or.inl rfl, hi⟩
        · refine ⟨Or.inr h1, fun hs => h2 (Or.inr hs)⟩
      · rintro ⟨rfl | h1, h2⟩
        · exact Or.inl rfl
        · by_cases hx : x = i
          · exact Or.inl hx
          · refine Or.inr ⟨h1, ?_⟩
            rintro (hs1 | hs2)
            · exact hx hs1
            · exact h2 hs2

/-- The first-occurrence deduplication has pairwise distinct entries. -/
theorem nodup_dedupFirstAux (ids : List Str) (seen : List Str) :
    (dedupFirstAux seen ids).Nodup := by
  induction ids generalizing seen with
  | nil => simp [dedupFirstAux]
  | cons i ids ih =>
    by_cases hi : i ∈ seen
    · simp only [dedupFirstAux, if_pos hi]
      exact ih seen
    · simp only [dedupFirstAux, if_neg hi]
      refine List.nodup_cons.mpr ⟨?_, ih (i :: seen)⟩
      intro hmem
      exact ((mem_dedupFirstAux ids (i :: seen) i).mp hmem).2 (List.mem_cons_self i seen)

/-- Folding dict insertions of empty-marker pairs appends exactly the
first occurrences of the keys not already present. -/
theorem foldl_dictInsert_dedup (ids : List Str) (d : DependencySet)
    (hv : ∀ p ∈ d, p.2 = ([] : List Str)) :
    List.foldl (fun dep id => dictInsert dep id []) d ids =
      d ++ (dedupFirstAux (d.map Prod.fst) ids).map (fun k => (k, [])) := by
  induction ids generalizing d with
  | nil => simp [dedupFirstAux]
  | cons i ids ih =>
    rw [List.foldl_cons]
    by_cases hi : i ∈ d.map Prod.fst
    · rw [dictInsert_of_mem d i hv hi, ih d hv]
      simp only [dedupFirstAux, if_pos hi]
    · rw [dictInsert_of_not_mem d i [] hi]
      have hv2 : ∀ p ∈ d ++ [(i, ([] : List Str))], p.2 = ([] : List Str) := by
        intro p hp
        rcases List.mem_append.mp hp with h1 | h2
        · exact hv p h1
        · simp at h2
          rw [h2]
      rw [ih (d ++ [(i, [])]) hv2]
      simp only [List.map_append, List.map_cons, List.map_nil]
      rw [dedupFirstAux_congr ids (d.map Prod.fst ++ [i]) (i :: d.map Prod.fst)
        (by intro x; simp [or_comm])]
      simp only [dedupFirstAux, if_neg hi]
      simp

/-- The primary-lock parser loop equals the dict-insertion fold over the
identifiers extracted per line. -/
theorem getNpm_foldl_filterMap (lines : List Str) (d : DependencySet) :
    List.foldl npmStep d lines =
      List.foldl (fun dep id => dictInsert dep id []) d (lines.filterMap npmLineId) := by
  induction lines generalizing d with
  | nil => rfl
  | cons l ls ih =>
    rw [List.foldl_cons]
    cases hl : npmLineId l with
    | none =>
      rw [List.filterMap_cons_none hl]
      have : npmStep d l = d := by simp [npmStep, hl]
      rw [this]
      exact ih d
    | some id =>
      rw [List.filterMap_cons_some hl, List.foldl_cons]
      have : npmStep d l = dictInsert d id [] := by simp [npmStep, hl]
      rw [this]
      exact ih (dictInsert d id [])

/-- The primary-lock parser output is the first-occurrence
deduplication of the per-line identifiers, each with an empty marker. -/
theorem getNpm_eq_dedup (lines : List Str) :
    GetNpmDependencyUpdates lines =
      (dedupFirstAux [] (lines.filterMap npmLineId)).map (fun k => (k, [])) := by
  have h0 : GetNpmDependencyUpdates lines = List.foldl npmStep [] lines := rfl
  rw [h0, getNpm_foldl_filterMap lines []]
  have := foldl_dictInsert_dedup (lines.filterMap npmLineId) []
    (by intro p hp; simp at hp)
  simpa using this

/-- The reconciler loop over empty-marker pairs filters the keys whose
lookup in the mirror dict does not return the empty marker. -/
theorem foldl_reconcileStep_map (yarnDeps : DependencySet) (ks : List Str) (acc : List Str) :
    List.foldl (reconcileStep yarnDeps) acc (ks.map (fun k => (k, []))) =
      acc ++ ks.filter (fun k => !(dictLookup yarnDeps k == some ([] : List Str))) := by
  induction ks generalizing acc with
  | nil => simp
  | cons k ks ih =>
    rw [List.map_cons, List.foldl_cons]
    cases hv : dictLookup yarnDeps k with
    | none =>
      have hstep : reconcileStep yarnDeps acc (k, []) = acc ++ [k] := by
        simp [reconcileStep, hv]
      have hpred : (!(dictLookup yarnDeps k == some ([] : List Str))) = true := by
        simp [hv]
      rw [hstep, ih]
      simp only [List.filter_cons, hpred, if_true]
      simp
    | some v =>
      by_cases hve : v = []
      · subst hve
        have hstep : reconcileStep yarnDeps acc (k, []) = acc := by
          simp [reconcileStep, hv]
        have hpred : (!(dictLookup yarnDeps k == some ([] : List Str))) = false := by
          simp [hv]
        rw [hstep, ih]
        simp [List.filter_cons, hpred]
      · have hstep : reconcileStep yarnDeps acc (k, []) = acc ++ [k] := by
          simp [reconcileStep, hv, hve]
        have hpred : (!(dictLookup yarnDeps k == some ([] : List Str))) = true := by
          simp [hv, hve]
        rw [hstep, ih]
        simp only [List.filter_cons, hpred, if_true]
        simp

/-- reconcile over a dict of empty-marker pairs in key order. -/
theorem reconcile_map_keys (yarnDeps : DependencySet) (ks : List Str) :
    reconcile yarnDeps (ks.map (fun k => (k, []))) =
      ks.filter (fun k => !(dictLookup yarnDeps k == some ([] : List Str))) := by
  have := foldl_reconcileStep_map yarnDeps ks []
  simpa [reconcile] using this

/-- Claim C8: order preservation. Whenever the mirror parse succeeds,
the out-of-sync list is exactly the first-occurrence ordered list of
identifiers extracted from the added and removed primary-diff lines,
filtered to those the mirror dict does not match: each identifier
appears in the order of its first appearance in the primary diff. -/
theorem out_of_sync_order (yarnDiff npmDiff : Str) (yarnDeps : DependencySet)
    (h : GetYarnDependencyUpdates (diffContentLines yarnDiff) = some yarnDeps) :
    GetUnmatchedDiffs yarnDiff npmDiff =
      some ((dedupFirstAux [] ((diffContentLines npmDiff).filterMap npmLineId)).filter
        (fun dep => !(dictLookup yarnDeps dep == some ([] : List Str)))) := by
  simp only [GetUnmatchedDiffs, h, getNpm_eq_dedup, reconcile_map_keys]

/-- Witness for claim C8 on concrete one-line diffs. -/
theorem out_of_sync_order_witness :
    GetUnmatchedDiffs "+a@1:".toList "+\"node_modules/b\": x".toList =
      some ((dedupFirstAux []
          ((diffContentLines "+\"node_modules/b\": x".toList).filterMap npmLineId)).filter
        (fun dep => !(dictLookup [("a".toList, [])] dep == some ([] : List Str)))) :=
  out_of_sync_order "+a@1:".toList "+\"node_modules/b\": x".toList [("a".toList, [])] rfl

/-- isPrefixOf holds on appending any tail to the prefix itself. -/
theorem isPrefixOf_append_self (l x : Str) : l.isPrefixOf (l ++ x) = true := by
  induction l with
  | nil => simp
  | cons a as ih => simp [List.isPrefixOf_cons₂, ih]

/-- Right strip distributes over an append whose left part is nonempty
and free of whitespace. -/
theorem pyRstrip_concat (a t : Str) (ha : a ≠ [])
    (hall : ∀ c ∈ a, pyIsSpace c = false) :
    pyRstrip (a ++ t) = a ++ pyRstrip t := by
  unfold pyRstrip
  rw [List.reverse_append, List.dropWhile_append]
  by_cases he : (t.reverse.dropWhile pyIsSpace).isEmpty
  · rw [if_pos he]
    have hra : a.reverse ≠ [] := by simpa using ha
    obtain ⟨c, rest, hcr⟩ := List.exists_cons_of_ne_nil hra
    have hcm : c ∈ a := by
      rw [← List.mem_reverse, hcr]
      exact List.mem_cons_self c rest
    have hc : pyIsSpace c = false := hall c hcm
    rw [hcr, List.dropWhile_cons, if_neg (by simp [hc]), ← hcr, List.reverse_reverse]
    have hte : t.reverse.dropWhile pyIsSpace = [] := by
      simpa using he
    rw [hte]
    simp
  · rw [if_neg he, List.reverse_append, List.reverse_reverse]

/-- Full strip on an append whose left part is nonempty and free of
whitespace only right-strips the tail. -/
theorem pyStrip_concat (a t : Str) (ha : a ≠ [])
    (hall : ∀ c ∈ a, pyIsSpace c = false) :
    pyStrip (a ++ t) = a ++ pyRstrip t := by
  unfold pyStrip
  have h1 : pyLstrip (a ++ t) = a ++ t := by
    obtain ⟨c, rest, rfl⟩ := List.exists_cons_of_ne_nil ha
    have hc : pyIsSpace c = false := hall c (List.mem_cons_self c rest)
    simp [pyLstrip, List.cons_append, List.dropWhile_cons, hc]
  rw [h1]
  exact pyRstrip_concat a t ha hall

/-- Leading-character strip is the identity when the first character of
the string differs from the stripped character. -/
theorem pyLstripChar_append_of_head (ch : Char) (a t : Str) (ha : a ≠ [])
    (h : ∀ c ∈ a, (c == ch) = false) : pyLstripChar ch (a ++ t) = a ++ t := by
  obtain ⟨c, rest, rfl⟩ := List.exists_cons_of_ne_nil ha
  have hc := h c (List.mem_cons_self c rest)
  simp [pyLstripChar, List.cons_append, List.dropWhile_cons, hc]

/-- pySplitOnce splits at position zero when the text starts with the
separator. -/
theorem pySplitOnce_self_append (sep x : Str) (hsep : sep ≠ []) :
    pySplitOnce sep (sep ++ x) = some ([], x) := by
  obtain ⟨s0, srest, rfl⟩ := List.exists_cons_of_ne_nil hsep
  have hpre : (s0 :: srest).isPrefixOf (s0 :: (srest ++ x)) = true :=
    isPrefixOf_append_self (s0 :: srest) x
  rw [List.cons_append]
  simp only [pySplitOnce]
  rw [if_pos hpre]
  have hd : (s0 :: (srest ++ x)).drop (s0 :: srest).length = x :=
    List.drop_left (s0 :: srest) x
  rw [hd]

/-- pySplitOnce on a one-character separator finds the first occurrence
past a separator-free middle part. -/
theorem pySplitOnce_char_mid (ch : Char) (mid b : Str)
    (hmid : ∀ x ∈ mid, (x == ch) = false) :
    pySplitOnce [ch] (mid ++ ch :: b) = some (mid, b) := by
  induction mid with
  | nil =>
    have h2 : pySplitOnce [ch] ([ch] ++ b) = some ([], b) :=
      pySplitOnce_self_append [ch] b (by simp)
    simpa using h2
  | cons x xs ih =>
    have hx := hmid x (List.mem_cons_self x xs)
    have hxne : ¬ (ch = x) := by
      intro he
      rw [he] at hx
      simp at hx
    have hnp : ([ch].isPrefixOf (x :: (xs ++ ch :: b))) = false := by
      simp [List.isPrefixOf_cons₂, hxne]
    rw [List.cons_append]
    simp only [pySplitOnce]
    rw [if_neg (by simp [hnp])]
    rw [ih (fun y hy => hmid y (List.mem_cons_of_mem x hy))]

/-- The Python split(ch, 1)[0] of a text made of a separator-free middle
followed by the separator is the middle itself. -/
theorem pyBeforeFirst_mid (ch : Char) (mid b : Str)
    (hmid : ∀ x ∈ mid, (x == ch) = false) :
    pyBeforeFirst ch (mid ++ ch :: b) = mid := by
  simp [pyBeforeFirst, pySplitOnce_char_mid ch mid b hmid]

/-- The per-line extraction of the primary parser on a well-formed
quoted node_modules line with arbitrary trailing content: the key is
exactly the quote-free middle part. -/
theorem npmLineId_key_with_tail (mid t : Str)
    (hsp : ∀ c ∈ npmKeyStart ++ mid ++ ['\x22'], pyIsSpace c = false)
    (hq : ∀ x ∈ mid, (x == '\x22') = false) :
    npmLineId ((npmKeyStart ++ mid ++ ['\x22']) ++ t) = some mid := by
  have hne : npmKeyStart ++ mid ++ ['\x22'] ≠ [] := by
    simp [npmKeyStart]
  have htab : ∀ c ∈ npmKeyStart ++ mid ++ ['\x22'], (c == '\x09') = false := by
    intro c hc
    have hs := hsp c hc
    by_contra hcc
    simp only [Bool.not_eq_false, beq_iff_eq] at hcc
    rw [hcc] at hs
    simp [pyIsSpace] at hs
  simp only [npmLineId]
  rw [pyStrip_concat _ t hne hsp]
  rw [pyLstripChar_append_of_head '\x09' _ (pyRstrip t) hne htab]
  have hassoc : (npmKeyStart ++ mid ++ ['\x22']) ++ pyRstrip t =
      npmKeyStart ++ (mid ++ '\x22' :: pyRstrip t) := by
    simp [List.append_assoc]
  rw [hassoc]
  have hpre : npmKeyStart.isPrefixOf (npmKeyStart ++ (mid ++ '\x22' :: pyRstrip t)) = true :=
    isPrefixOf_append_self npmKeyStart _
  rw [if_pos hpre]
  simp only [pySplitOnce_self_append npmKeyStart (mid ++ '\x22' :: pyRstrip t)
      (by simp [npmKeyStart]),
    pyBeforeFirst_mid '\x22' mid (pyRstrip t) hq]

/-- In a duplicate-free list, a member is counted exactly once. -/
theorem count_eq_one_of_nodup_mem (l : List Str) (x : Str) (hnd : l.Nodup) (hm : x ∈ l) :
    l.count x = 1 := by
  induction l with
  | nil => simp at hm
  | cons a as ih =>
    rcases List.mem_cons.mp hm with rfl | h2
    · have hnotin : x ∉ as := (List.nodup_cons.mp hnd).1
      have h0 : as.count x = 0 := List.count_eq_zero.mpr hnotin
      simp [List.count_cons, h0]
    · have ha : ¬ (a = x) := by
        intro he
        subst he
        exact (List.nodup_cons.mp hnd).1 h2
      have h1 := ih (List.nodup_cons.mp hnd).2 h2
      simp [List.count_cons, h1, ha]

/-- Claim C3 (counterexample): with the line occurring exactly once, the
parsed key set does not contain the bare identifier foo at all (the key
kept is the full quoted path segment foo/package.json). -/
theorem npm_key_is_not_foo :
    "foo".toList ∉
      (GetNpmDependencyUpdates ["\"node_modules/foo/package.json\"".toList]).map Prod.fst := by
  decide

/-- Claim C3 (amended): for every line list in which the quoted
node_modules/foo/package.json line, with arbitrary trailing content,
occurs one or more times, the primary parser output contains the key
foo/package.json exactly once, however often the line recurs. -/
theorem npm_line_dedup (lines : List Str) (t : Str)
    (h : ("\"node_modules/foo/package.json\"".toList ++ t) ∈ lines) :
    ((GetNpmDependencyUpdates lines).map Prod.fst).count "foo/package.json".toList = 1 := by
  rw [getNpm_eq_dedup, List.map_map]
  have hcomp : (Prod.fst ∘ fun (k : Str) => (k, ([] : List Str))) = (id : Str → Str) := rfl
  rw [hcomp, List.map_id]
  have hid : npmLineId ("\"node_modules/foo/package.json\"".toList ++ t) =
      some ("foo/package.json".toList) := by
    have heq : "\"node_modules/foo/package.json\"".toList =
        npmKeyStart ++ ("foo/package.json".toList) ++ ['\x22'] := by decide
    rw [heq]
    exact npmLineId_key_with_tail ("foo/package.json".toList) t (by decide) (by decide)
  have hmem : "foo/package.json".toList ∈ lines.filterMap npmLineId :=
    List.mem_filterMap.mpr ⟨_, h, hid⟩
  have hmem2 : "foo/package.json".toList ∈ dedupFirstAux [] (lines.filterMap npmLineId) :=
    (mem_dedupFirstAux _ _ _).mpr ⟨hmem, by simp⟩
  exact count_eq_one_of_nodup_mem _ _ (nodup_dedupFirstAux _ _) hmem2

/-- Witness for claim C3: the line occurring twice still yields the key
exactly once. -/
theorem npm_line_dedup_witness :
    ((GetNpmDependencyUpdates ["\"node_modules/foo/package.json\"".toList,
        "\"node_modules/foo/package.json\"".toList]).map Prod.fst).count
      "foo/package.json".toList = 1 :=
  npm_line_dedup ["\"node_modules/foo/package.json\"".toList,
    "\"node_modules/foo/package.json\"".toList] [] (by simp)

/-- Splitting after a break-free line followed by a newline peels off
that line. -/
theorem pySplitlines_append_newline (l s : Str)
    (h : ∀ c ∈ l, pyIsLineBreak c = false) :
    pySplitlines (l ++ '\x0a' :: s) = l :: pySplitlines s := by
  have hnl : pyIsLineBreak '\x0a' = true := by decide
  induction l with
  | nil =>
    cases s with
    | nil => rfl
    | cons c2 rest => simp [pySplitlines, hnl]
  | cons c l ih =>
    have hc : pyIsLineBreak c = false := h c (List.mem_cons_self c l)
    have hcr : ¬ (c = '\x0d') := by
      intro he
      subst he
      simp [pyIsLineBreak] at hc
    have ih2 := ih (fun x hx => h x (List.mem_cons_of_mem c hx))
    cases l with
    | nil =>
      cases s with
      | nil => simp [pySplitlines, hc, hcr, hnl]
      | cons d rest => simp [pySplitlines, hc, hcr, hnl]
    | cons d l2 =>
      simp only [List.cons_append] at ih2 ⊢
      rw [pySplitlines]
      · rw [if_neg (by intro hh; exact hcr hh.1), if_neg (by simp [hc]), ih2]

/-- A nonempty break-free text splits into the single line it is. -/
theorem pySplitlines_single (l : Str) (hne : l ≠ [])
    (h : ∀ c ∈ l, pyIsLineBreak c = false) : pySplitlines l = [l] := by
  induction l with
  | nil => exact absurd rfl hne
  | cons c rest ih =>
    have hc : pyIsLineBreak c = false := h c (List.mem_cons_self c rest)
    cases rest with
    | nil => simp [pySplitlines, hc]
    | cons d rest2 =>
      have hcr : ¬ (c = '\x0d') := by
        intro he
        subst he
        simp [pyIsLineBreak] at hc
      have ih2 := ih (by simp) (fun x hx => h x (List.mem_cons_of_mem c hx))
      rw [pySplitlines]
      · rw [if_neg (fun hh => hcr hh.1), if_neg (by simp [hc]), ih2]

/-- Splitting the newline join of nonempty break-free lines recovers
exactly the lines. -/
theorem pySplitlines_joinLines (ls : List Str)
    (h : ∀ l ∈ ls, l ≠ [] ∧ ∀ c ∈ l, pyIsLineBreak c = false) :
    pySplitlines (joinLines ls) = ls := by
  induction ls with
  | nil => rfl
  | cons l ls2 ih =>
    cases ls2 with
    | nil =>
      have hl := h l (List.mem_cons_self _ _)
      simpa [joinLines] using pySplitlines_single l hl.1 hl.2
    | cons l2 ls3 =>
      have hl := h l (List.mem_cons_self _ _)
      have hrest := fun x hx => h x (List.mem_cons_of_mem l hx)
      rw [joinLines, pySplitlines_append_newline l _ hl.2, ih hrest]

/-- Prefixing a diff marker keeps every built line nonempty and free of
break characters. -/
theorem marked_lines_props (marks : List Bool) (lines : List Str)
    (h : ∀ l ∈ lines, ∀ c ∈ l, pyIsLineBreak c = false) :
    ∀ x ∈ List.zipWith (fun m l => markChar m :: l) marks lines,
      x ≠ [] ∧ ∀ c ∈ x, pyIsLineBreak c = false := by
  induction marks generalizing lines with
  | nil => intro x hx; simp at hx
  | cons m ms ih =>
    cases lines with
    | nil => intro x hx; simp at hx
    | cons l ls =>
      intro x hx
      rcases List.mem_cons.mp hx with h1 | h2
      · subst h1
        refine ⟨by simp, ?_⟩
        intro c hc
        rcases List.mem_cons.mp hc with hc1 | hc2
        · subst hc1
          cases m <;> decide
        · exact h l (List.mem_cons_self _ _) c hc2
      · exact ih ls (fun q hq => h q (List.mem_cons_of_mem l hq)) x h2

/-- The marker filter keeps every marked line and the marker drop
recovers the content lines. -/
theorem filter_map_marked (marks : List Bool) (lines : List Str)
    (hlen : marks.length = lines.length) :
    ((List.zipWith (fun m l => markChar m :: l) marks lines).filter
        (fun line => ['+'].isPrefixOf line || ['-'].isPrefixOf line)).map
      (fun line => line.drop 1) = lines := by
  induction marks generalizing lines with
  | nil =>
    cases lines with
    | nil => rfl
    | cons l ls => simp at hlen
  | cons m ms ih =>
    cases lines with
    | nil => simp at hlen
    | cons l ls =>
      have hlen2 : ms.length = ls.length := by simpa using hlen
      have hpred : (['+'].isPrefixOf (markChar m :: l) ||
          ['-'].isPrefixOf (markChar m :: l)) = true := by
        cases m <;> simp [markChar, List.isPrefixOf_cons₂]
      rw [List.zipWith_cons_cons]
      simp only [List.filter_cons, hpred, if_true, List.map_cons, List.drop_succ_cons,
        List.drop_zero]
      rw [ih ls hlen2]

/-- The diff-line extraction of a built diff returns its content lines,
independently of the markers. -/
theorem diffContentLines_buildDiff (marks : List Bool) (lines : List Str)
    (hlen : marks.length = lines.length)
    (hnb : ∀ l ∈ lines, ∀ c ∈ l, pyIsLineBreak c = false) :
    diffContentLines (buildDiff marks lines) = lines := by
  unfold diffContentLines buildDiff
  rw [pySplitlines_joinLines _ (marked_lines_props marks lines hnb)]
  exact filter_map_marked marks lines hlen

/-- Claim C10: the diff direction of a change is ignored. Both parsers
pool added and removed lines, so replacing any combination of plus and
minus markers by all-plus markers (or any other combination) leaves the
verdict of GetUnmatchedDiffs unchanged: an identifier removed in the
primary lock counts as synchronized when the mirror diff carries it as
either an addition or a removal, and the core cannot distinguish the
two. -/
theorem direction_ignored (yMarks nMarks : List Bool) (yLines nLines : List Str)
    (hy : yMarks.length = yLines.length) (hn : nMarks.length = nLines.length)
    (hyb : ∀ l ∈ yLines, ∀ c ∈ l, pyIsLineBreak c = false)
    (hnb : ∀ l ∈ nLines, ∀ c ∈ l, pyIsLineBreak c = false) :
    GetUnmatchedDiffs (buildDiff yMarks yLines) (buildDiff nMarks nLines) =
      GetUnmatchedDiffs (buildDiff (List.replicate yLines.length true) yLines)
        (buildDiff (List.replicate nLines.length true) nLines) := by
  unfold GetUnmatchedDiffs
  rw [diffContentLines_buildDiff yMarks yLines hy hyb,
    diffContentLines_buildDiff nMarks nLines hn hnb,
    diffContentLines_buildDiff (List.replicate yLines.length true) yLines
      (List.length_replicate _ _) hyb,
    diffContentLines_buildDiff (List.replicate nLines.length true) nLines
      (List.length_replicate _ _) hnb]

/-- Witness for claim C10: a removal-only pair gives the same verdict
as the all-additions pair. -/
theorem direction_ignored_witness :
    GetUnmatchedDiffs (buildDiff [false] ["a@1:".toList])
        (buildDiff [false] ["\"node_modules/a\": x".toList]) =
      GetUnmatchedDiffs (buildDiff (List.replicate 1 true) ["a@1:".toList])
        (buildDiff (List.replicate 1 true) ["\"node_modules/a\": x".toList]) :=
  direction_ignored [false] [false] ["a@1:".toList] ["\"node_modules/a\": x".toList]
    rfl rfl (by decide) (by decide)

end DepVerifier
